import Mathlib

/-!
Verification development for the `bfx_local` code-standards auditor
(`src/bfx_local/checker.py`, `src/bfx_local/internal.py`).

The Python code is shallowly embedded: Python strings become `String`,
`str.split(sep)` / `sep.join(...)` / the substring test `in` become the
executable functions `pySplit` / `pyJoin` / `pyIn` below, `int(...)`
becomes `pyInt`, decimal rendering of integers (via `str.format`) becomes
`natStr`, and fallible code (IndexError / ValueError / IOError paths)
returns `Option`.  File contents reached through `open(...)` are modelled
as a lookup `String → Option (List String)` from a path to the file's
lines, and `os.path` manipulation (an outside collaborator) is abstracted
by passing the already-computed relative path.
-/

/-- Python `s.split(sep)` on character lists (single-character separator,
as used throughout the source: ":", "#", "\n", " ", ",").  Like Python,
it keeps empty chunks and always returns at least one chunk. -/
def splitCh (sep : Char) : List Char → List (List Char)
  | [] => [[]]
  | c :: cs =>
    if c = sep then [] :: splitCh sep cs
    else
      match splitCh sep cs with
      | [] => [[c]]
      | h :: t => (c :: h) :: t

/-- Python `s.split(sep)` for `String`s. -/
def pySplit (sep : Char) (s : String) : List String :=
  (splitCh sep s.data).map fun l => String.mk l

/-- Python `sep.join(parts)`. -/
def pyJoin (sep : String) : List String → String
  | [] => ""
  | [x] => x
  | x :: y :: t => x ++ sep ++ pyJoin sep (y :: t)

/-- Python substring test `needle in hay`. -/
def pyIn (needle hay : String) : Bool :=
  hay.data.tails.any fun t => needle.data.isPrefixOf t

/-- Python 2 string comparison `a < b`: lexicographic on character
(byte) values. -/
def pyLtChars : List Char → List Char → Bool
  | [], [] => false
  | [], _ :: _ => true
  | _ :: _, [] => false
  | a :: as, b :: bs =>
    if a.toNat < b.toNat then true
    else if b.toNat < a.toNat then false
    else pyLtChars as bs

/-- Python 2 string comparison for `String`s. -/
def pyLt (a b : String) : Bool := pyLtChars a.data b.data

/-- Characters Python `int(...)` strips from both ends of its argument. -/
def isPySpace (c : Char) : Bool :=
  c == ' ' || c == '\t' || c == '\n' || c == '\r' || c == '\x0b' || c == '\x0c'

/-- Strip leading and trailing whitespace from a character list. -/
def stripChars (l : List Char) : List Char :=
  ((l.dropWhile isPySpace).reverse.dropWhile isPySpace).reverse

/-- Numeric value of a list of decimal digit characters. -/
def digitsToNat (l : List Char) : Nat :=
  l.foldl (fun a c => a * 10 + (c.toNat - 48)) 0

/-- Python `int(s)`: optional surrounding whitespace, optional sign, then
a non-empty run of decimal digits; anything else raises `ValueError`,
modelled as `none`. -/
def pyInt (s : String) : Option Int :=
  match stripChars s.data with
  | [] => none
  | c :: rest =>
    if c = '-' then
      if rest ≠ [] ∧ rest.all Char.isDigit then some (-(digitsToNat rest : Int)) else none
    else if c = '+' then
      if rest ≠ [] ∧ rest.all Char.isDigit then some ((digitsToNat rest : Int)) else none
    else if (c :: rest).all Char.isDigit then some ((digitsToNat (c :: rest) : Int))
    else none

/-- The decimal digit character for `d < 10`. -/
def digitCh (d : Nat) : Char := Char.ofNat (d + 48)

/-- Decimal digit characters of a natural number, driven by a fuel
argument so that the definition is structurally recursive (the fuel is
always sufficient: each step divides by 10). -/
def natStrCharsAux : Nat → Nat → List Char
  | 0, n => [digitCh n]
  | fuel + 1, n =>
    if n < 10 then [digitCh n]
    else natStrCharsAux fuel (n / 10) ++ [digitCh (n % 10)]

/-- Decimal digit characters of a natural number, as produced by Python
string formatting of a non-negative int. -/
def natStrChars (n : Nat) : List Char := natStrCharsAux n n

/-- Decimal rendering of a natural number. -/
def natStr (n : Nat) : String := String.mk (natStrChars n)

/-- The fixed message text for each violation code
(`InternalStandardsChecker.__add_error`, internal.py lines 84-108). -/
def msgFor (type : String) : String :=
  if type = "BE001" then "string contains absolute path"
  else if type = "BE002" then "code does not compile"
  else if type = "BE003" then "line longer than 120 characters"
  else if type = "BE004" then "reloading modules in production code"
  else if type = "BE005" then "file does not contain encoding header: \"# -*- coding: utf-8 -*-\""
  else if type = "BE006" then "local imports should be relative, not absolute"
  else if type = "BE100" then "project does not contain .gitignore file"
  else if type = "BE101" then ".gitignore file not ignoring *.pyc files"
  else if type = "BE102" then ".gitignore file not ignoring .*.swp files"
  else if type = "BE103" then ".gitignore file not ignoring .idea files (pycharm project files)"
  else if type = "BE104" then ".gitignore file not ignoring files ending in ~"
  else "unknown error"

/-- The rendered violation line
`"{0}:{1}:{2}: {3} {4}".format(relative_filepath, line, column, type, text)`
(internal.py lines 114-115). -/
def renderLine (relPath : String) (line column : Nat) (type text : String) : String :=
  relPath ++ ":" ++ natStr line ++ ":" ++ natStr column ++ ": " ++ type ++ " " ++ text

/-- `InternalStandardsChecker.__add_error`: skips codes in the checker's
`ignore` list, otherwise appends one rendered line.  `relPath` stands for
`os.path.join(".", os.path.relpath(filepath, self.directory))` (or `""`
for project-level errors), computed by the outside `os.path`
collaborator. -/
def addError (ignore : List String) (type : String) (relPath : String)
    (line column : Nat) : List String :=
  if ignore.contains type then [] else [renderLine relPath line column type (msgFor type)]

/-- The checker's default `ignore` list: `"".split(",")` from the default
constructor argument `ignore=""` (internal.py line 47-49), the value used
by `CodeChecker.__run_check` (checker.py line 142). -/
def defaultIgnore : List String := pySplit ',' ""

/-- A Python 2 `ast` expression node, restricted to the node kinds the
rule visitor's behaviour depends on: string literals (`Str`), numbers
(`Num`), names (`Name`), calls (`Call`) and a representative compound
expression with children (`BinOp`), each carrying `lineno`/`col_offset`. -/
inductive PyExpr where
  | strLit (lineno col : Nat) (s : String)
  | num (lineno col : Nat) (n : Int)
  | name (lineno col : Nat) (id : String)
  | call (lineno col : Nat) (func : PyExpr) (args : List PyExpr)
  | binop (lineno col : Nat) (left right : PyExpr)

/-- A Python 2 `ast` statement node: expression statements, `import`
(with its list of alias names) and `from ... import` (whose `module` may
be `None` for relative imports). -/
inductive PyStmt where
  | exprStmt (e : PyExpr)
  | importStmt (lineno col : Nat) (names : List String)
  | importFrom (lineno col : Nat) (module : Option String)

/-- A parsed module: its `body` list of statements. -/
structure PyModule where
  body : List PyStmt

/-- The `Violation` namedtuple `(code, line, column, value)`
(internal.py line 7). -/
structure Violation where
  code : String
  line : Nat
  column : Nat
  value : String
deriving DecidableEq

/-- The regular expression `(^[a-zA-Z]:[/\\])|(^[/\\][a-zA-Z])` applied
with `re.search` (no flags, both alternatives anchored at the start)
in `NodeVisitor.visit_Str` (internal.py line 18). -/
def isAbsPath (s : String) : Bool :=
  match s.data with
  | a :: b :: c :: _ =>
    (a.isAlpha && b == ':' && (c == '/' || c == '\\')) ||
      ((a == '/' || a == '\\') && b.isAlpha)
  | [a, b] => (a == '/' || a == '\\') && b.isAlpha
  | _ => false

/-- The `.s` attribute of an ast node: present only on `Str` nodes;
accessing it on any other node raises `AttributeError` (`none`). -/
def nodeS : PyExpr → Option String
  | .strLit _ _ s => some s
  | _ => none

/-- The `.lineno` attribute (present on every ast node). -/
def exprLineno : PyExpr → Nat
  | .strLit l _ _ => l
  | .num l _ _ => l
  | .name l _ _ => l
  | .call l _ _ _ => l
  | .binop l _ _ _ => l

/-- The `.col_offset` attribute (present on every ast node). -/
def exprCol : PyExpr → Nat
  | .strLit _ c _ => c
  | .num _ c _ => c
  | .name _ c _ => c
  | .call _ c _ _ => c
  | .binop _ c _ _ => c

/-- `NodeVisitor.visit_Str` applied to an arbitrary node (it is also
called manually on every call argument): reading `node.s` raises
`AttributeError` (`none`) on non-`Str` nodes; otherwise it appends a
`BE001` violation when the absolute-path pattern matches. -/
def visitStrOn (e : PyExpr) : Option (List Violation) :=
  match nodeS e with
  | none => none
  | some s =>
    some (if isAbsPath s then [⟨"BE001", exprLineno e, exprCol e, s⟩] else [])

/-- The `for arg in node.args: self.visit_Str(arg)` loop of
`visit_Call`, wrapped in `try ... except AttributeError: pass`: the first
argument without an `.s` attribute aborts the whole loop. -/
def visitArgs : List PyExpr → List Violation
  | [] => []
  | a :: rest =>
    match visitStrOn a with
    | none => []
    | some vs => vs ++ visitArgs rest

/-- The visitor's dispatch on expressions.  `visit_Str` and `visit_Call`
are overridden; since `visit_Call` never calls `generic_visit`, the
children of a `Call` node are not traversed (only its direct arguments
are fed to `visit_Str` manually).  Other expression kinds fall through to
`generic_visit`, which visits their children. -/
def visitExpr : PyExpr → List Violation
  | .strLit l c s => if isAbsPath s then [⟨"BE001", l, c, s⟩] else []
  | .num _ _ _ => []
  | .name _ _ _ => []
  | .binop _ _ a b => visitExpr a ++ visitExpr b
  | .call l c f args =>
    (match f with
     | .name _ _ id => if id = "reload" then [⟨"BE004", l, c, "reload"⟩] else []
     | _ => []) ++ visitArgs args

/-- The visitor's dispatch on statements, carrying `self.module` (the
result of `module_dict.get(...)`, possibly `None`).  Python truthiness of
the strings is modelled by the `≠ ""` tests. -/
def visitStmt (module : Option String) : PyStmt → List Violation
  | .exprStmt e => visitExpr e
  | .importStmt l c names =>
    names.flatMap fun nm =>
      match module with
      | some m => if nm ≠ "" ∧ m ≠ "" ∧ nm.startsWith m then [⟨"BE006", l, c, nm⟩] else []
      | none => []
  | .importFrom l c mod =>
    match mod, module with
    | some md, some m =>
      if md ≠ "" ∧ m ≠ "" ∧ md.startsWith m then [⟨"BE006", l, c, md⟩] else []
    | _, _ => []

/-- Running `NodeVisitor(module).visit(tree)` on a parsed module:
`generic_visit` on `Module` visits each statement of the body in order. -/
def runVisitor (module : Option String) (m : PyModule) : List Violation :=
  m.body.flatMap (visitStmt module)

/-- The line-length loop of `__check_file` (internal.py lines 123-128):
a counter starts at 0 and each line longer than 120 characters is
reported at `line_number + 1`, column 0. -/
def lengthErrorsAux (ignore : List String) (relPath : String) :
    List String → Nat → List String
  | [], _ => []
  | line :: rest, lineNumber =>
    (if line.length > 120 then addError ignore "BE003" relPath (lineNumber + 1) 0 else []) ++
      lengthErrorsAux ignore relPath rest (lineNumber + 1)

/-- The recognized UTF-8 declaration comment (internal.py line 132). -/
def encodingComment : String := "# -*- coding: utf-8 -*-"

/-- The encoding check of `__check_file` (internal.py lines 129-136):
`has_encoding` scans the first two lines for the declaration comment, and
the violation is reported only when additionally `len(lines) > 1` and
`lines[0] == ""` (the split always yields at least one line, so the
indexing cannot fail). -/
def encodingErrors (ignore : List String) (relPath : String) (lines : List String) :
    List String :=
  if !(lines.take 2).any (fun line => pyIn encodingComment line) &&
      decide (lines.length > 1) && (lines[0]? == some "") then
    addError ignore "BE005" relPath 1 0
  else []

/-- `InternalStandardsChecker.__find_errors` (internal.py lines 163-170):
run the visitor and render each of its violations. -/
def visitorErrors (ignore : List String) (relPath : String) (module : Option String)
    (m : PyModule) : List String :=
  (runVisitor module m).flatMap fun v => addError ignore v.code relPath v.line v.column

/-- `InternalStandardsChecker.__check_file` (internal.py lines 117-143)
for one file.  `readResult` is `none` when reading the file raises, and
`parse` models `ast.parse` (`none` = any exception).  The surrounding
`try` means: errors appended before the failing operation are kept, and
any exception adds a single `BE002` at line 0, column 0. -/
def checkFile (ignore : List String) (relPath : String) (readResult : Option String)
    (parse : String → Option PyModule) (module : Option String) : List String :=
  match readResult with
  | none => addError ignore "BE002" relPath 0 0
  | some contents =>
    match parse contents with
    | none =>
      lengthErrorsAux ignore relPath (pySplit '\n' contents) 0 ++
        encodingErrors ignore relPath (pySplit '\n' contents) ++
        addError ignore "BE002" relPath 0 0
    | some m =>
      lengthErrorsAux ignore relPath (pySplit '\n' contents) 0 ++
        encodingErrors ignore relPath (pySplit '\n' contents) ++
        visitorErrors ignore relPath module m

/-- The `CheckResult` class (checker.py lines 77-82). -/
structure CheckResult where
  type : String
  output : List String
  num_violations : Nat
  return_code : Nat
deriving DecidableEq

/-- The tail of `CodeChecker.__run_check` (checker.py lines 146-147):
`num_violations = len(output)` and `return_code = 1 if num_violations
else 0`. -/
def mkCheckResult (type : String) (output : List String) : CheckResult :=
  ⟨type, output, output.length, if output.length ≠ 0 then 1 else 0⟩

/-- The loop body of `smartsort` (checker.py lines 60-73) from index `i`
with the remaining number of iterations as fuel: `int(...)` failing with
`ValueError` falls back to lexical comparison of the two fields, while an
out-of-range index raises an uncaught `IndexError` (`none`). -/
def smartsortLoop (aList bList : List String) : Nat → Nat → Option Int
  | _, 0 => some 0
  | i, fuel + 1 =>
    match aList[i]?, bList[i]? with
    | some x, some y =>
      match pyInt x, pyInt y with
      | some aPart, some bPart =>
        if aPart > bPart then some 1
        else if bPart > aPart then some (-1)
        else smartsortLoop aList bList (i + 1) fuel
      | _, _ =>
        if pyLt y x then some 1
        else if pyLt x y then some (-1)
        else smartsortLoop aList bList (i + 1) fuel
    | _, _ => none

/-- `smartsort` (checker.py lines 54-74): split both lines on `":"` and
compare field by field up to the longer field count. -/
def smartsort (a b : String) : Option Int :=
  let aList := pySplit ':' a
  let bList := pySplit ':' b
  smartsortLoop aList bList 0 (max aList.length bList.length)

/-- Insert into an already-sorted list according to a comparator,
propagating a comparator crash. -/
def insertCmp (cmp : String → String → Option Int) (x : String) :
    List String → Option (List String)
  | [] => some [x]
  | y :: ys =>
    match cmp x y with
    | none => none
    | some r =>
      if r ≤ 0 then some (x :: y :: ys)
      else
        match insertCmp cmp x ys with
        | none => none
        | some rest => some (y :: rest)

/-- `violations.sort(cmp=smartsort)` (checker.py line 369), modelled as a
comparison insertion sort (Python's sort is a stable comparison sort; on
a consistent comparator any such sort produces the same output). -/
def sortCmp (cmp : String → String → Option Int) : List String → Option (List String)
  | [] => some []
  | x :: xs =>
    match sortCmp cmp xs with
    | none => none
    | some s => insertCmp cmp x s

/-- Field extraction applied to every output line in the first phase of
`CodeChecker.__remove_exceptions` (checker.py lines 238-241):
`values = line.split(":")`, `filename = values[0]`,
`line_number = values[1]`, `error_code = values[3].split(" ")[1]`;
a missing index raises `IndexError` (`none`). -/
def lineFields (line : String) : Option (String × String × String) :=
  let values := pySplit ':' line
  match values[0]?, values[1]?, values[3]? with
  | some f, some ln, some v3 =>
    match (pySplit ' ' v3)[1]? with
    | some code => some (f, ln, code)
    | none => none
  | _, _, _ => none

/-- Field extraction in the final filter pass of `__remove_exceptions`
(checker.py lines 283-285): only `values[0]` and the code are used. -/
def finalFields (line : String) : Option (String × String) :=
  let values := pySplit ':' line
  match values[0]?, values[3]? with
  | some f, some v3 =>
    match (pySplit ' ' v3)[1]? with
    | some code => some (f, code)
    | none => none
  | _, _ => none

/-- One entry of the `file_dict` built by `__remove_exceptions`: the
parsed `(filename, line number, code)` triple together with the original
rendered line (`LineErrorEntry`). -/
structure ParsedEntry where
  filename : String
  lineNo : Int
  code : String
  orig : String
deriving DecidableEq

/-- Parsing of one output line in the first phase of
`__remove_exceptions`: field extraction may raise (`none`), a line with
an empty filename is skipped (`some none`), and `int(line_number)` may
raise `ValueError` (`none`). -/
def parseOne (line : String) : Option (Option ParsedEntry) :=
  match lineFields line with
  | none => none
  | some (f, ln, code) =>
    if f = "" then some none
    else
      match pyInt ln with
      | none => none
      | some n => some (some ⟨f, n, code, line⟩)

/-- Parsing of all output lines, in order; any crash aborts the whole
call (the Python would raise out of `__remove_exceptions`). -/
def parseLines : List String → Option (List ParsedEntry)
  | [] => some []
  | l :: rest =>
    match parseOne l, parseLines rest with
    | some none, some es => some es
    | some (some e), some es => some (e :: es)
    | _, _ => none

/-- Lookup in the `file_lines` dictionary: `enumerate` keys the lines by
0-based position, so `i in line_dict` holds exactly for `0 ≤ i <` the
number of lines. -/
def lookupLine (flines : List String) (i : Int) : Option String :=
  if i < 0 then none else flines[i.toNat]?

/-- `CodeChecker.__get_comment_string` (checker.py lines 149-167): for
each of the dictionary keys `line_number - 2`, `line_number - 1`,
`line_number` that is present, append everything after the first `"#"`
of that stored line. -/
def getCommentString (flines : List String) (lineNumber : Int) : String :=
  [lineNumber - 2, lineNumber - 1, lineNumber].foldl
    (fun cs i =>
      match lookupLine flines i with
      | none => cs
      | some text =>
        let line := pySplit '#' text
        if line.length > 1 then cs ++ pyJoin "#" (line.drop 1) else cs)
    ""

/-- Modelled from the spec: the spec's step 5 of the Suppression Engine
says the "nearby comment" string concatenates the comment portion of the
implicated line *itself and its two preceding lines*, i.e. the 1-based
lines `N - 2`, `N - 1`, `N` — 0-based indices `N - 3`, `N - 2`, `N - 1`.
This definition follows the spec's words, for comparison with
`getCommentString`, which embeds the code. -/
def specCommentString (flines : List String) (lineNumber : Int) : String :=
  [lineNumber - 3, lineNumber - 2, lineNumber - 1].foldl
    (fun cs i =>
      match lookupLine flines i with
      | none => cs
      | some text =>
        let line := pySplit '#' text
        if line.length > 1 then cs ++ pyJoin "#" (line.drop 1) else cs)
    ""

/-- The inline-approval phase of `__remove_exceptions` (checker.py lines
259-277): for each parsed entry, open the implicated file (a missing or
unreadable file raises, `none`) and record the original rendered line as
approved when its code occurs in the nearby comment string.  The Python
iterates a dict grouped by file and line; since the approved list is only
ever used through membership, the grouping order is irrelevant and the
entries are processed in output order here. -/
def approvedOf (files : String → Option (List String)) :
    List ParsedEntry → Option (List String)
  | [] => some []
  | e :: rest =>
    match files e.filename, approvedOf files rest with
    | some flines, some acc =>
      some (if pyIn e.code (getCommentString flines e.lineNo) then e.orig :: acc else acc)
    | _, _ => none

/-- The keep-condition of the final filter pass (checker.py line 287):
`line not in ignored_errors and not self.__should_ignore_file(filepath)
and code not in ignored_codes`. -/
def keepLine (shouldIgnoreFile : String → Bool) (ignoredCodes ignoredErrors : List String)
    (line : String) : Bool :=
  match finalFields line with
  | some (f, code) =>
    !ignoredErrors.contains line && !shouldIgnoreFile f && !ignoredCodes.contains code
  | none => false

/-- The final filter pass over one result's output (checker.py lines
280-288); re-parsing a line may raise (`none`). -/
def filterLines (shouldIgnoreFile : String → Bool) (ignoredCodes ignoredErrors : List String) :
    List String → Option (List String)
  | [] => some []
  | line :: rest =>
    match finalFields line, filterLines shouldIgnoreFile ignoredCodes ignoredErrors rest with
    | some _, some acc =>
      some (if keepLine shouldIgnoreFile ignoredCodes ignoredErrors line then line :: acc else acc)
    | _, _ => none

/-- Rebuild every result with its filtered output and updated
`num_violations` (checker.py lines 280-291); `type` and `return_code`
are not assigned. -/
def filterResults (shouldIgnoreFile : String → Bool) (ignoredCodes ignoredErrors : List String) :
    List CheckResult → Option (List CheckResult)
  | [] => some []
  | r :: rest =>
    match filterLines shouldIgnoreFile ignoredCodes ignoredErrors r.output,
        filterResults shouldIgnoreFile ignoredCodes ignoredErrors rest with
    | some newOutput, some others =>
      some ({ r with output := newOutput, num_violations := newOutput.length } :: others)
    | _, _ => none

/-- `CodeChecker.IGNORED_CODES` (checker.py line 93). -/
def IGNORED_CODES : String := "W291,W292,W293,W391,E501"

/-- The combined blacklist (checker.py lines 214-219):
`IGNORED_CODES.split(",")` extended by the ignore policy's `"codes"`
entry when present (`TypeError`/`KeyError` leave the list unchanged). -/
def buildIgnoredCodes (policyCodes : Option (List String)) : List String :=
  pySplit ',' IGNORED_CODES ++ policyCodes.getD []

/-- All output lines of all results, in order (the iteration of
checker.py lines 235-236). -/
def allOutput (results : List CheckResult) : List String :=
  results.flatMap fun r => r.output

/-- `CodeChecker.__remove_exceptions` (checker.py lines 204-293).
`shouldIgnoreFile` abstracts `__should_ignore_file` (a pure function of
the path built from the read-only ignore policy via `os.path` and `re`,
both outside collaborators), and `files` gives the lines of a file
under the working directory (`none` = the `open` raises). -/
def removeExceptions (shouldIgnoreFile : String → Bool) (ignoredCodes : List String)
    (files : String → Option (List String)) (results : List CheckResult) :
    Option (List CheckResult) :=
  match parseLines (allOutput results) with
  | none => none
  | some entries =>
    match approvedOf files entries with
    | none => none
    | some ignoredErrors => filterResults shouldIgnoreFile ignoredCodes ignoredErrors results

/-- The last two characters of a string, in reverse order: a convenient
discriminator between the fixed violation messages, which pairwise differ
in their final two characters. -/
def lastTwo (s : String) : List Char := s.data.reverse.take 2

/-- The column/line parse of a rendered line under the Suppression
Engine's delimiter convention (checker.py lines 238-241): fields split on
`":"`, the path is field 0, the line number field 1 (read with `int`), the
column field 2, and the code the second space-separated token of
field 3. -/
def parseRendered (line : String) : Option (String × Int × Int × String) :=
  let values := pySplit ':' line
  match values[0]?, values[1]?, values[2]?, values[3]? with
  | some f, some ln, some colF, some v3 =>
    match (pySplit ' ' v3)[1]? with
    | some code =>
      match pyInt ln, pyInt colF with
      | some n, some c => some (f, n, c, code)
      | _, _ => none
    | none => none
  | _, _, _, _ => none

/-- Test whether a rendered line carries the fixed message of the given
violation code, by comparing the last two characters (the eleven fixed
messages of `msgFor` pairwise differ in their final two characters, and a
rendered line ends with its message). -/
def hasMsgOf (ty : String) (s : String) : Bool :=
  lastTwo s == lastTwo (msgFor ty)

/-! ### Basic lemmas about the string embedding -/

theorem mk_data (s : String) : String.mk s.data = s := by
  cases s
  rfl

theorem dataAppend (a b : String) : (a ++ b).data = a.data ++ b.data := rfl

theorem splitCh_ne_nil (sep : Char) (l : List Char) : splitCh sep l ≠ [] := by
  cases l with
  | nil => simp [splitCh]
  | cons c cs =>
    simp only [splitCh]
    split
    · simp
    · split <;> simp

theorem splitCh_cons_ne {sep c : Char} {rest h : List Char} {t : List (List Char)}
    (hc : c ≠ sep) (hs : splitCh sep rest = h :: t) :
    splitCh sep (c :: rest) = (c :: h) :: t := by
  simp only [splitCh, if_neg hc, hs]

theorem splitCh_append_sep {sep : Char} {x rest : List Char} (hx : sep ∉ x) :
    splitCh sep (x ++ sep :: rest) = x :: splitCh sep rest := by
  induction x with
  | nil => simp [splitCh]
  | cons c cs ih =>
    have hc : c ≠ sep := fun h => hx (h ▸ List.mem_cons_self c cs)
    have hcs : sep ∉ cs := fun h => hx (List.mem_cons_of_mem _ h)
    obtain ⟨h, t, hs⟩ := List.exists_cons_of_ne_nil (splitCh_ne_nil sep rest)
    rw [List.cons_append, splitCh_cons_ne hc (ih hcs)]

theorem splitCh_no_sep {sep : Char} {x : List Char} (hx : sep ∉ x) :
    splitCh sep x = [x] := by
  induction x with
  | nil => rfl
  | cons c cs ih =>
    have hc : c ≠ sep := fun h => hx (h ▸ List.mem_cons_self c cs)
    have hcs : sep ∉ cs := fun h => hx (List.mem_cons_of_mem _ h)
    rw [splitCh_cons_ne hc (ih hcs)]

theorem splitCh_append_front {sep : Char} {x rest h : List Char} {t : List (List Char)}
    (hx : sep ∉ x) (hs : splitCh sep rest = h :: t) :
    splitCh sep (x ++ rest) = (x ++ h) :: t := by
  induction x with
  | nil => simpa using hs
  | cons c cs ih =>
    have hc : c ≠ sep := fun hcEq => hx (hcEq ▸ List.mem_cons_self c cs)
    have hcs : sep ∉ cs := fun hm => hx (List.mem_cons_of_mem _ hm)
    rw [List.cons_append, splitCh_cons_ne hc (ih hcs), List.cons_append]

/-! ### Decimal rendering round-trips through `pyInt` -/

theorem digitCh_toNat {d : Nat} (hd : d < 10) : (digitCh d).toNat = d + 48 := by
  interval_cases d <;> decide

theorem digitCh_isDigit {d : Nat} (hd : d < 10) : (digitCh d).isDigit = true := by
  interval_cases d <;> decide

theorem digitCh_not_space {d : Nat} (hd : d < 10) : isPySpace (digitCh d) = false := by
  interval_cases d <;> decide

theorem digitsToNat_append_digit (xs : List Char) (c : Char) :
    digitsToNat (xs ++ [c]) = digitsToNat xs * 10 + (c.toNat - 48) := by
  simp [digitsToNat, List.foldl_append]

theorem natStrCharsAux_spec :
    ∀ fuel n, n ≤ fuel ∨ n < 10 →
      digitsToNat (natStrCharsAux fuel n) = n ∧
        ∀ c ∈ natStrCharsAux fuel n, ∃ d, d < 10 ∧ c = digitCh d := by
  intro fuel
  induction fuel with
  | zero =>
    intro n hn
    have h10 : n < 10 := by omega
    refine ⟨?_, ?_⟩
    · simp [natStrCharsAux, digitsToNat, digitCh_toNat h10]
    · intro c hc
      simp only [natStrCharsAux, List.mem_singleton] at hc
      exact ⟨n, h10, hc⟩
  | succ fuel ih =>
    intro n hn
    by_cases h10 : n < 10
    · refine ⟨?_, ?_⟩
      · simp [natStrCharsAux, if_pos h10, digitsToNat, digitCh_toNat h10]
      · intro c hc
        simp only [natStrCharsAux, if_pos h10, List.mem_singleton] at hc
        exact ⟨n, h10, hc⟩
    · have hdiv : n / 10 ≤ fuel := by
        have h1 : n / 10 < n := Nat.div_lt_self (by omega) (by omega)
        omega
      obtain ⟨ihVal, ihMem⟩ := ih (n / 10) (Or.inl hdiv)
      constructor
      · rw [natStrCharsAux, if_neg h10, digitsToNat_append_digit, ihVal,
          digitCh_toNat (Nat.mod_lt n (by omega))]
        omega
      · intro c hc
        rw [natStrCharsAux, if_neg h10] at hc
        rcases List.mem_append.mp hc with hc | hc
        · exact ihMem c hc
        · exact ⟨n % 10, Nat.mod_lt n (by omega), List.mem_singleton.mp hc⟩

theorem natStrChars_val (n : Nat) : digitsToNat (natStrChars n) = n :=
  (natStrCharsAux_spec n n (Or.inl le_rfl)).1

theorem natStrChars_digits (n : Nat) :
    ∀ c ∈ natStrChars n, ∃ d, d < 10 ∧ c = digitCh d :=
  (natStrCharsAux_spec n n (Or.inl le_rfl)).2

theorem natStrChars_toNat_bound {n : Nat} {c : Char} (hc : c ∈ natStrChars n) :
    48 ≤ c.toNat ∧ c.toNat ≤ 57 := by
  obtain ⟨d, hd, rfl⟩ := natStrChars_digits n c hc
  rw [digitCh_toNat hd]
  omega

theorem natStrChars_ne_nil (n : Nat) : natStrChars n ≠ [] := by
  unfold natStrChars
  cases n with
  | zero => simp [natStrCharsAux]
  | succ m =>
    simp only [natStrCharsAux]
    split
    · simp
    · simp

theorem dropWhile_eq_self_of {p : Char → Bool} {l : List Char}
    (h : ∀ c ∈ l, p c = false) : l.dropWhile p = l := by
  cases l with
  | nil => rfl
  | cons c cs => rw [List.dropWhile_cons, h c (List.mem_cons_self c cs)]; simp

theorem stripChars_of_no_space {l : List Char} (h : ∀ c ∈ l, isPySpace c = false) :
    stripChars l = l := by
  unfold stripChars
  rw [dropWhile_eq_self_of h, dropWhile_eq_self_of (by simpa using h), List.reverse_reverse]

theorem natStr_data (n : Nat) : (natStr n).data = natStrChars n := rfl

theorem pyInt_natStr (n : Nat) : pyInt (natStr n) = some (n : Int) := by
  have hstrip : stripChars (natStr n).data = natStrChars n := by
    rw [natStr_data]
    refine stripChars_of_no_space fun c hc => ?_
    obtain ⟨d, hd, rfl⟩ := natStrChars_digits n c hc
    exact digitCh_not_space hd
  obtain ⟨c, rest, hcons⟩ := List.exists_cons_of_ne_nil (natStrChars_ne_nil n)
  have hcNat : 48 ≤ c.toNat ∧ c.toNat ≤ 57 :=
    natStrChars_toNat_bound (hcons ▸ List.mem_cons_self c rest)
  have hcm : c ≠ '-' := by
    intro h
    rw [h] at hcNat
    simp at hcNat
  have hcp : c ≠ '+' := by
    intro h
    rw [h] at hcNat
    simp at hcNat
  have hall : (c :: rest).all Char.isDigit = true := by
    rw [List.all_eq_true]
    intro x hx
    obtain ⟨d, hd, rfl⟩ := natStrChars_digits n x (hcons ▸ hx)
    exact digitCh_isDigit hd
  have hval : digitsToNat (c :: rest) = n := by
    rw [← hcons]
    exact natStrChars_val n
  simp only [pyInt, hstrip, hcons, if_neg hcm, if_neg hcp, if_pos hall, hval]

/-! ### Splitting a rendered violation line -/

theorem natStrChars_no_colon (n : Nat) : ':' ∉ natStrChars n := by
  intro h
  have hb := natStrChars_toNat_bound h
  have h58 : (':' : Char).toNat = 58 := by decide
  omega

theorem natStrChars_no_space (n : Nat) : ' ' ∉ natStrChars n := by
  intro h
  have hb := natStrChars_toNat_bound h
  have h32 : (' ' : Char).toNat = 32 := by decide
  omega

theorem renderLine_data (p : String) (l c : Nat) (ty m : String) :
    (renderLine p l c ty m).data =
      p.data ++ ':' :: (natStrChars l ++ ':' :: (natStrChars c ++
        ':' :: ' ' :: (ty.data ++ ' ' :: m.data))) := by
  have hc : (":" : String).data = [':'] := rfl
  have hcs : (": " : String).data = [':', ' '] := rfl
  have hs : (" " : String).data = [' '] := rfl
  simp [renderLine, dataAppend, natStr_data, hc, hcs, hs]

theorem splitCh_renderLine {p ty : String} (l c : Nat) {m : String}
    {m0 : List Char} {mt : List (List Char)}
    (hp : ':' ∉ p.data) (hty : ':' ∉ ty.data) (hm : splitCh ':' m.data = m0 :: mt) :
    splitCh ':' (renderLine p l c ty m).data =
      p.data :: natStrChars l :: natStrChars c ::
        ((' ' :: ty.data ++ [' ']) ++ m0) :: mt := by
  rw [renderLine_data, splitCh_append_sep hp,
    splitCh_append_sep (natStrChars_no_colon l),
    splitCh_append_sep (natStrChars_no_colon c)]
  have hR3 : ' ' :: (ty.data ++ ' ' :: m.data) = (' ' :: ty.data ++ [' ']) ++ m.data := by
    simp
  rw [hR3, splitCh_append_front ?_ hm]
  intro hmem
  simp only [List.cons_append, List.mem_cons, List.mem_append, List.mem_singleton] at hmem
  rcases hmem with h | h | h
  · exact absurd h (by decide)
  · exact hty h
  · exact absurd h (by decide)

theorem pySplit_renderLine {p ty : String} (l c : Nat) {m : String}
    {m0 : List Char} {mt : List (List Char)}
    (hp : ':' ∉ p.data) (hty : ':' ∉ ty.data) (hm : splitCh ':' m.data = m0 :: mt) :
    pySplit ':' (renderLine p l c ty m) =
      p :: natStr l :: natStr c ::
        String.mk ((' ' :: ty.data ++ [' ']) ++ m0) :: mt.map (fun x => String.mk x) := by
  unfold pySplit
  rw [splitCh_renderLine l c hp hty hm]
  simp [mk_data, natStr]

theorem splitCh_space_field {ty : String} {m0 : List Char} (hty : ' ' ∉ ty.data) :
    splitCh ' ' ((' ' :: ty.data ++ [' ']) ++ m0) = [] :: ty.data :: splitCh ' ' m0 := by
  have h1 : (' ' :: ty.data ++ [' ']) ++ m0 = ' ' :: (ty.data ++ ' ' :: m0) := by simp
  rw [h1]
  have h2 : splitCh ' ' (' ' :: (ty.data ++ ' ' :: m0)) =
      [] :: splitCh ' ' (ty.data ++ ' ' :: m0) := by
    simp [splitCh]
  rw [h2, splitCh_append_sep hty]

theorem lastTwo_renderLine (p : String) (l c : Nat) (ty m : String)
    (h2 : 2 ≤ m.data.length) :
    lastTwo (renderLine p l c ty m) = m.data.reverse.take 2 := by
  have h1 : renderLine p l c ty m =
      (p ++ ":" ++ natStr l ++ ":" ++ natStr c ++ ": " ++ ty ++ " ") ++ m := rfl
  unfold lastTwo
  rw [h1, dataAppend, List.reverse_append,
    List.take_append_of_le_length (by simpa using h2)]

/-! ### The rule visitor emits only the codes BE001, BE004, BE006 -/

theorem visitStrOn_codes {a : PyExpr} {vs : List Violation} (h : visitStrOn a = some vs) :
    ∀ v ∈ vs, v.code = "BE001" := by
  unfold visitStrOn at h
  cases hs : nodeS a with
  | none => rw [hs] at h; exact absurd h (by simp)
  | some s =>
    rw [hs] at h
    injection h with h
    subst h
    intro v hv
    split at hv
    · rw [List.mem_singleton.mp hv]
    · exact absurd hv (by simp)

theorem visitArgs_codes : ∀ (args : List PyExpr), ∀ v ∈ visitArgs args, v.code = "BE001"
  | [] => by simp [visitArgs]
  | a :: rest => by
    intro v hv
    unfold visitArgs at hv
    cases hs : visitStrOn a with
    | none => rw [hs] at hv; exact absurd hv (by simp)
    | some vs =>
      rw [hs] at hv
      rcases List.mem_append.mp hv with h | h
      · exact visitStrOn_codes hs v h
      · exact visitArgs_codes rest v h

theorem visitExpr_codes :
    ∀ (e : PyExpr), ∀ v ∈ visitExpr e, v.code = "BE001" ∨ v.code = "BE004"
  | .strLit l c s => by
    intro v hv
    simp only [visitExpr] at hv
    split at hv
    · exact Or.inl (by rw [List.mem_singleton.mp hv])
    · exact absurd hv (by simp)
  | .num _ _ _ => by simp [visitExpr]
  | .name _ _ _ => by simp [visitExpr]
  | .binop _ _ a b => by
    intro v hv
    simp only [visitExpr] at hv
    rcases List.mem_append.mp hv with h | h
    · exact visitExpr_codes a v h
    · exact visitExpr_codes b v h
  | .call l c f args => by
    intro v hv
    simp only [visitExpr] at hv
    rcases List.mem_append.mp hv with h | h
    · cases f with
      | name fl fc id =>
        simp only at h
        split at h
        · exact Or.inr (by rw [List.mem_singleton.mp h])
        · exact absurd h (by simp)
      | strLit _ _ _ => exact absurd h (by simp)
      | num _ _ _ => exact absurd h (by simp)
      | call _ _ _ _ => exact absurd h (by simp)
      | binop _ _ _ _ => exact absurd h (by simp)
    · exact Or.inl (visitArgs_codes args v h)

theorem visitStmt_codes (module : Option String) (st : PyStmt) :
    ∀ v ∈ visitStmt module st, v.code = "BE001" ∨ v.code = "BE004" ∨ v.code = "BE006" := by
  intro v hv
  cases st with
  | exprStmt e =>
    rcases visitExpr_codes e v hv with h | h
    · exact Or.inl h
    · exact Or.inr (Or.inl h)
  | importStmt l c names =>
    simp only [visitStmt] at hv
    rcases List.mem_flatMap.mp hv with ⟨nm, _, hm⟩
    cases module with
    | none => exact absurd hm (by simp)
    | some m =>
      simp only at hm
      split at hm
      · exact Or.inr (Or.inr (by rw [List.mem_singleton.mp hm]))
      · exact absurd hm (by simp)
  | importFrom l c mod =>
    simp only [visitStmt] at hv
    cases mod with
    | none =>
      cases module <;> exact absurd hv (by simp)
    | some md =>
      cases module with
      | none => exact absurd hv (by simp)
      | some m =>
        simp only at hv
        split at hv
        · exact Or.inr (Or.inr (by rw [List.mem_singleton.mp hv]))
        · exact absurd hv (by simp)

theorem runVisitor_codes {module : Option String} {m : PyModule} {v : Violation}
    (hv : v ∈ runVisitor module m) :
    v.code = "BE001" ∨ v.code = "BE004" ∨ v.code = "BE006" := by
  rcases List.mem_flatMap.mp hv with ⟨st, _, hm⟩
  exact visitStmt_codes module st v hm

/-! ### Lemmas about the file auditor's rendered output -/

theorem addError_default {ty : String} (h : defaultIgnore.contains ty = false)
    (relPath : String) (line col : Nat) :
    addError defaultIgnore ty relPath line col =
      [renderLine relPath line col ty (msgFor ty)] := by
  unfold addError
  rw [h]
  simp

theorem hasMsgOf_renderLine (ty p ty2 m : String) (l c : Nat) (h2 : 2 ≤ m.data.length) :
    hasMsgOf ty (renderLine p l c ty2 m) = (m.data.reverse.take 2 == lastTwo (msgFor ty)) := by
  unfold hasMsgOf
  rw [lastTwo_renderLine _ _ _ _ _ h2]

theorem lengthErrorsAux_eq (relPath : String) :
    ∀ (lines : List String) (k : Nat),
      lengthErrorsAux defaultIgnore relPath lines k =
        (List.enumFrom k lines).flatMap fun q =>
          if (q.2).length > 120 then
            [renderLine relPath (q.1 + 1) 0 "BE003" (msgFor "BE003")]
          else []
  | [], k => rfl
  | line :: rest, k => by
    rw [lengthErrorsAux, List.enumFrom_cons, List.flatMap_cons,
      lengthErrorsAux_eq relPath rest (k + 1)]
    by_cases hl : line.length > 120
    · rw [if_pos hl, if_pos hl, addError_default (by decide)]
    · rw [if_neg hl, if_neg hl]

theorem lengthErrorsAux_msg {relPath : String} {lines : List String} {k : Nat} {x : String}
    (hx : x ∈ lengthErrorsAux defaultIgnore relPath lines k) :
    lastTwo x = (msgFor "BE003").data.reverse.take 2 := by
  rw [lengthErrorsAux_eq] at hx
  rcases List.mem_flatMap.mp hx with ⟨q, _, hm⟩
  split at hm
  · rw [List.mem_singleton.mp hm, lastTwo_renderLine _ _ _ _ _ (by decide)]
  · exact absurd hm (by simp)

theorem mem_encodingErrors {relPath : String} {lines : List String} {x : String} :
    x ∈ encodingErrors defaultIgnore relPath lines ↔
      ((!(lines.take 2).any (fun line => pyIn encodingComment line) &&
          decide (lines.length > 1) && (lines[0]? == some "")) = true ∧
        x = renderLine relPath 1 0 "BE005" (msgFor "BE005")) := by
  unfold encodingErrors
  split
  · rename_i hcond
    rw [addError_default (by decide)]
    simp [hcond]
  · rename_i hcond
    simp only [List.not_mem_nil, false_iff, not_and]
    intro h
    exact absurd h hcond

theorem visitorErrors_msg {relPath : String} {module : Option String} {m : PyModule}
    {x : String} (hx : x ∈ visitorErrors defaultIgnore relPath module m) :
    lastTwo x = (msgFor "BE001").data.reverse.take 2 ∨
      lastTwo x = (msgFor "BE004").data.reverse.take 2 ∨
      lastTwo x = (msgFor "BE006").data.reverse.take 2 := by
  rcases List.mem_flatMap.mp hx with ⟨v, hv, hm⟩
  rcases runVisitor_codes hv with hc | hc | hc
  · rw [hc] at hm
    rw [addError_default (by decide)] at hm
    exact Or.inl (by rw [List.mem_singleton.mp hm, lastTwo_renderLine _ _ _ _ _ (by decide)])
  · rw [hc] at hm
    rw [addError_default (by decide)] at hm
    exact Or.inr (Or.inl
      (by rw [List.mem_singleton.mp hm, lastTwo_renderLine _ _ _ _ _ (by decide)]))
  · rw [hc] at hm
    rw [addError_default (by decide)] at hm
    exact Or.inr (Or.inr
      (by rw [List.mem_singleton.mp hm, lastTwo_renderLine _ _ _ _ _ (by decide)]))

theorem filter_hasMsgOf_lengthErrors {ty relPath : String} {lines : List String} {k : Nat}
    (hne : ((msgFor "BE003").data.reverse.take 2 == lastTwo (msgFor ty)) = false) :
    (lengthErrorsAux defaultIgnore relPath lines k).filter (hasMsgOf ty) = [] := by
  apply List.filter_eq_nil_iff.mpr
  intro a ha hpa
  unfold hasMsgOf at hpa
  rw [lengthErrorsAux_msg ha, hne] at hpa
  exact absurd hpa (by simp)

theorem filter_hasMsgOf_lengthErrors_self {relPath : String} {lines : List String} {k : Nat} :
    (lengthErrorsAux defaultIgnore relPath lines k).filter (hasMsgOf "BE003") =
      lengthErrorsAux defaultIgnore relPath lines k := by
  apply List.filter_eq_self.mpr
  intro a ha
  unfold hasMsgOf
  rw [lengthErrorsAux_msg ha]
  decide

theorem filter_hasMsgOf_encodingErrors {ty relPath : String} {lines : List String}
    (hne : ((msgFor "BE005").data.reverse.take 2 == lastTwo (msgFor ty)) = false) :
    (encodingErrors defaultIgnore relPath lines).filter (hasMsgOf ty) = [] := by
  apply List.filter_eq_nil_iff.mpr
  intro a ha hpa
  obtain ⟨-, rfl⟩ := mem_encodingErrors.mp ha
  rw [hasMsgOf_renderLine _ _ _ _ _ _ (by decide), hne] at hpa
  exact absurd hpa (by simp)

theorem filter_hasMsgOf_addError {ty ty2 relPath : String} {l c : Nat}
    (h2 : 2 ≤ (msgFor ty2).data.length)
    (hne : ((msgFor ty2).data.reverse.take 2 == lastTwo (msgFor ty)) = false)
    (hc : defaultIgnore.contains ty2 = false) :
    (addError defaultIgnore ty2 relPath l c).filter (hasMsgOf ty) = [] := by
  rw [addError_default hc]
  have hfalse : hasMsgOf ty (renderLine relPath l c ty2 (msgFor ty2)) = false := by
    rw [hasMsgOf_renderLine _ _ _ _ _ _ h2]
    exact hne
  simp [List.filter_cons, hfalse]

theorem filter_hasMsgOf_visitorErrors {ty relPath : String} {module : Option String}
    {m : PyModule}
    (h1 : ((msgFor "BE001").data.reverse.take 2 == lastTwo (msgFor ty)) = false)
    (h4 : ((msgFor "BE004").data.reverse.take 2 == lastTwo (msgFor ty)) = false)
    (h6 : ((msgFor "BE006").data.reverse.take 2 == lastTwo (msgFor ty)) = false) :
    (visitorErrors defaultIgnore relPath module m).filter (hasMsgOf ty) = [] := by
  apply List.filter_eq_nil_iff.mpr
  intro a ha hpa
  unfold hasMsgOf at hpa
  rcases visitorErrors_msg ha with h | h | h
  · rw [h, h1] at hpa
    exact absurd hpa (by simp)
  · rw [h, h4] at hpa
    exact absurd hpa (by simp)
  · rw [h, h6] at hpa
    exact absurd hpa (by simp)

/-- Claim C7: for every audited file (whose read succeeds) and every
physical line longer than 120 characters, the auditor emits exactly one
line-too-long (BE003) violation at that line's 1-based number with column
0, whether or not the file parses: the BE003-message lines of the output
are exactly one rendered line per long line, in file order, for any
outcome of `parse`. -/
theorem C7_line_too_long (relPath contents : String) (parse : String → Option PyModule)
    (module : Option String) :
    (checkFile defaultIgnore relPath (some contents) parse module).filter (hasMsgOf "BE003") =
      (pySplit '\n' contents).enum.flatMap fun q =>
        if (q.2).length > 120 then
          [renderLine relPath (q.1 + 1) 0 "BE003" (msgFor "BE003")]
        else [] := by
  have henum : (pySplit '\n' contents).enum = List.enumFrom 0 (pySplit '\n' contents) := rfl
  cases hp : parse contents with
  | none =>
    simp only [checkFile, hp]
    rw [List.filter_append, List.filter_append, filter_hasMsgOf_lengthErrors_self,
      filter_hasMsgOf_encodingErrors (by decide),
      filter_hasMsgOf_addError (by decide) (by decide) (by decide),
      List.append_nil, List.append_nil, lengthErrorsAux_eq, henum]
  | some m =>
    simp only [checkFile, hp]
    rw [List.filter_append, List.filter_append, filter_hasMsgOf_lengthErrors_self,
      filter_hasMsgOf_encodingErrors (by decide),
      filter_hasMsgOf_visitorErrors (by decide) (by decide) (by decide),
      List.append_nil, List.append_nil, lengthErrorsAux_eq, henum]

/-- Claim C5 (counterexample): the claim says a missing-encoding-header
violation is emitted at line 1 if and only if no encoding comment occurs
in the first two lines and the very first line is blank, with no other
condition on the file.  The empty file refutes it: its only (first) line
is blank and it has no encoding comment, yet `__check_file` emits nothing
because of the additional `len(lines) > 1` condition
(internal.py line 135). -/
theorem C5_counterexample :
    checkFile defaultIgnore "./e.py" (some "") (fun _ => some (PyModule.mk [])) none = [] ∧
      ((pySplit '\n' "").take 2).any (fun line => pyIn encodingComment line) = false ∧
      (pySplit '\n' "")[0]? = some "" := by
  refine ⟨?_, by decide, by decide⟩
  rfl

/-- Claim C5 (amended): a missing-encoding-header (BE005) violation is
emitted at line 1 if and only if no line among the file's first two lines
contains the recognized UTF-8 declaration comment, the file's very first
line is blank, AND the file splits into more than one line (i.e. its
contents contain at least one newline) — the `len(lines) > 1` guard of
internal.py line 135 is the one further condition. -/
theorem C5_amended_encoding_header (relPath contents : String)
    (parse : String → Option PyModule) (module : Option String) :
    renderLine relPath 1 0 "BE005" (msgFor "BE005") ∈
        checkFile defaultIgnore relPath (some contents) parse module ↔
      (((pySplit '\n' contents).take 2).any (fun line => pyIn encodingComment line) = false ∧
        1 < (pySplit '\n' contents).length ∧
        (pySplit '\n' contents)[0]? = some "") := by
  have hnotlen : renderLine relPath 1 0 "BE005" (msgFor "BE005") ∉
      lengthErrorsAux defaultIgnore relPath (pySplit '\n' contents) 0 := by
    intro h
    have hmsg := lengthErrorsAux_msg h
    rw [lastTwo_renderLine _ _ _ _ _ (by decide)] at hmsg
    exact absurd hmsg (by decide)
  have hmemenc : renderLine relPath 1 0 "BE005" (msgFor "BE005") ∈
        encodingErrors defaultIgnore relPath (pySplit '\n' contents) ↔
      ((!((pySplit '\n' contents).take 2).any (fun line => pyIn encodingComment line) &&
          decide ((pySplit '\n' contents).length > 1) &&
          ((pySplit '\n' contents)[0]? == some "")) = true) := by
    rw [mem_encodingErrors]
    simp
  have hcond :
      ((!((pySplit '\n' contents).take 2).any (fun line => pyIn encodingComment line) &&
          decide ((pySplit '\n' contents).length > 1) &&
          ((pySplit '\n' contents)[0]? == some "")) = true) ↔
        (((pySplit '\n' contents).take 2).any (fun line => pyIn encodingComment line) = false ∧
          1 < (pySplit '\n' contents).length ∧
          (pySplit '\n' contents)[0]? = some "") := by
    simp only [Bool.and_eq_true, Bool.not_eq_true', decide_eq_true_eq, beq_iff_eq]
    tauto
  cases hp : parse contents with
  | none =>
    simp only [checkFile, hp, List.mem_append]
    constructor
    · rintro ((h | h) | h)
      · exact absurd h hnotlen
      · exact hcond.mp (hmemenc.mp h)
      · rw [addError_default (by decide)] at h
        have heq := congrArg lastTwo (List.mem_singleton.mp h)
        rw [lastTwo_renderLine _ _ _ _ _ (by decide),
          lastTwo_renderLine _ _ _ _ _ (by decide)] at heq
        exact absurd heq (by decide)
    · intro h
      exact Or.inl (Or.inr (hmemenc.mpr (hcond.mpr h)))
  | some m =>
    simp only [checkFile, hp, List.mem_append]
    constructor
    · rintro ((h | h) | h)
      · exact absurd h hnotlen
      · exact hcond.mp (hmemenc.mp h)
      · rcases visitorErrors_msg h with hm | hm | hm <;>
          rw [lastTwo_renderLine _ _ _ _ _ (by decide)] at hm <;>
          exact absurd hm (by decide)
    · intro h
      exact Or.inl (Or.inr (hmemenc.mpr (hcond.mpr h)))

/-- Claim C6: when reading or parsing a file raises any exception, the
auditor emits exactly one file-does-not-compile (BE002) violation for the
file, at line 0, column 0, and no tree-rule violations: the output
counts the BE002 line at 0:0 exactly once and contains no line carrying
the BE001, BE004 or BE006 message. -/
theorem C6_compile_failure (relPath : String) (readResult : Option String)
    (parse : String → Option PyModule) (module : Option String)
    (h : readResult = none ∨ ∃ contents, readResult = some contents ∧ parse contents = none) :
    List.count (renderLine relPath 0 0 "BE002" (msgFor "BE002"))
        (checkFile defaultIgnore relPath readResult parse module) = 1 ∧
      (checkFile defaultIgnore relPath readResult parse module).filter (hasMsgOf "BE001") = [] ∧
      (checkFile defaultIgnore relPath readResult parse module).filter (hasMsgOf "BE004") = [] ∧
      (checkFile defaultIgnore relPath readResult parse module).filter (hasMsgOf "BE006") = [] := by
  rcases h with rfl | ⟨contents, rfl, hp⟩
  · refine ⟨?_, ?_, ?_, ?_⟩
    · simp only [checkFile]
      rw [addError_default (by decide)]
      simp [List.count_singleton]
    · exact filter_hasMsgOf_addError (by decide) (by decide) (by decide)
    · exact filter_hasMsgOf_addError (by decide) (by decide) (by decide)
    · exact filter_hasMsgOf_addError (by decide) (by decide) (by decide)
  · have hcount2 : ∀ lines : List String, ∀ k : Nat,
        List.count (renderLine relPath 0 0 "BE002" (msgFor "BE002"))
          (lengthErrorsAux defaultIgnore relPath lines k) = 0 := by
      intro lines k
      apply List.count_eq_zero.mpr
      intro hmem
      have hmsg := lengthErrorsAux_msg hmem
      rw [lastTwo_renderLine _ _ _ _ _ (by decide)] at hmsg
      exact absurd hmsg (by decide)
    have hcountEnc :
        List.count (renderLine relPath 0 0 "BE002" (msgFor "BE002"))
          (encodingErrors defaultIgnore relPath (pySplit '\n' contents)) = 0 := by
      apply List.count_eq_zero.mpr
      intro hmem
      obtain ⟨-, heq⟩ := mem_encodingErrors.mp hmem
      have hl := congrArg lastTwo heq
      rw [lastTwo_renderLine _ _ _ _ _ (by decide),
        lastTwo_renderLine _ _ _ _ _ (by decide)] at hl
      exact absurd hl (by decide)
    refine ⟨?_, ?_, ?_, ?_⟩
    · simp only [checkFile, hp]
      rw [List.count_append, List.count_append, hcount2, hcountEnc,
        addError_default (by decide)]
      simp [List.count_singleton]
    all_goals
      simp only [checkFile, hp]
    · rw [List.filter_append, List.filter_append,
        filter_hasMsgOf_lengthErrors (by decide),
        filter_hasMsgOf_encodingErrors (by decide),
        filter_hasMsgOf_addError (by decide) (by decide) (by decide)]
      rfl
    · rw [List.filter_append, List.filter_append,
        filter_hasMsgOf_lengthErrors (by decide),
        filter_hasMsgOf_encodingErrors (by decide),
        filter_hasMsgOf_addError (by decide) (by decide) (by decide)]
      rfl
    · rw [List.filter_append, List.filter_append,
        filter_hasMsgOf_lengthErrors (by decide),
        filter_hasMsgOf_encodingErrors (by decide),
        filter_hasMsgOf_addError (by decide) (by decide) (by decide)]
      rfl

/-- Claim C6 witness: the concrete file `"x"` whose parse fails yields
exactly the single BE002 line and nothing with a visitor message. -/
theorem C6_witness :
    List.count (renderLine "./w.py" 0 0 "BE002" (msgFor "BE002"))
        (checkFile defaultIgnore "./w.py" (some "x") (fun _ => none) none) = 1 ∧
      (checkFile defaultIgnore "./w.py" (some "x") (fun _ => none) none).filter
          (hasMsgOf "BE001") = [] ∧
      (checkFile defaultIgnore "./w.py" (some "x") (fun _ => none) none).filter
          (hasMsgOf "BE004") = [] ∧
      (checkFile defaultIgnore "./w.py" (some "x") (fun _ => none) none).filter
          (hasMsgOf "BE006") = [] :=
  C6_compile_failure "./w.py" (some "x") (fun _ => none) none
    (Or.inr ⟨"x", rfl, rfl⟩)

/-! ### Claims about the rule visitor (C2, C8) -/

theorem visitStrOn_strLit (l c : Nat) (s : String) (habs : isAbsPath s = true) :
    visitStrOn (PyExpr.strLit l c s) = some [⟨"BE001", l, c, s⟩] := by
  simp [visitStrOn, nodeS, exprLineno, exprCol, habs]

theorem mem_visitArgs_strLit {args1 args2 : List PyExpr} {l c : Nat} {s : String}
    (habs : isAbsPath s = true) (h1 : ∀ a ∈ args1, (nodeS a).isSome) :
    (⟨"BE001", l, c, s⟩ : Violation) ∈ visitArgs (args1 ++ PyExpr.strLit l c s :: args2) := by
  induction args1 with
  | nil =>
    rw [List.nil_append, visitArgs, visitStrOn_strLit l c s habs]
    exact List.mem_append.mpr (Or.inl (List.mem_singleton.mpr rfl))
  | cons a rest ih =>
    obtain ⟨s0, hs0⟩ := Option.isSome_iff_exists.mp (h1 a (List.mem_cons_self a rest))
    have hvs : visitStrOn a =
        some (if isAbsPath s0 then [⟨"BE001", exprLineno a, exprCol a, s0⟩] else []) := by
      simp [visitStrOn, hs0]
    rw [List.cons_append, visitArgs, hvs]
    exact List.mem_append.mpr
      (Or.inr (ih fun x hx => h1 x (List.mem_cons_of_mem _ hx)))

/-- Claim C2 (counterexample): the claim says every absolute-path string
literal passed as a call argument is flagged regardless of the other
arguments and of call nesting.  Both parts fail on the code: in
`f(1, "C:/x")` the leading non-string argument raises `AttributeError`
inside `visit_Call`'s manual argument loop and aborts it, and in
`f(g("C:/x"))` the inner call is never traversed because `visit_Call`
does not call `generic_visit`; neither produces a BE001 violation even
though `"C:/x"` matches the pattern. -/
theorem C2_counterexample :
    isAbsPath "C:/x" = true ∧
      runVisitor none (PyModule.mk [PyStmt.exprStmt
        (PyExpr.call 1 0 (PyExpr.name 1 0 "f")
          [PyExpr.num 1 2 1, PyExpr.strLit 1 5 "C:/x"])]) = [] ∧
      runVisitor none (PyModule.mk [PyStmt.exprStmt
        (PyExpr.call 1 0 (PyExpr.name 1 0 "f")
          [PyExpr.call 1 2 (PyExpr.name 1 2 "g") [PyExpr.strLit 1 7 "C:/x"]])]) = [] := by
  refine ⟨by decide, by decide, by decide⟩

/-- Claim C2 (amended): every string literal matching the absolute-path
pattern yields a BE001 violation when it occurs as a bare expression
statement, and when it is a direct argument of a call provided every
earlier argument is itself a string literal (has the `.s` attribute); a
string argument preceded by a non-string argument, or nested inside an
inner call, is not flagged (see the counterexample). -/
theorem C2_amended_absolute_path_literals (module : Option String)
    (stmts1 stmts2 : List PyStmt) (l c : Nat) (s : String)
    (habs : isAbsPath s = true) :
    (⟨"BE001", l, c, s⟩ : Violation) ∈ runVisitor module
        (PyModule.mk (stmts1 ++ PyStmt.exprStmt (PyExpr.strLit l c s) :: stmts2)) ∧
      ∀ (cl cc : Nat) (f : PyExpr) (args1 args2 : List PyExpr),
        (∀ a ∈ args1, (nodeS a).isSome) →
        (⟨"BE001", l, c, s⟩ : Violation) ∈ runVisitor module
          (PyModule.mk (stmts1 ++ PyStmt.exprStmt
            (PyExpr.call cl cc f (args1 ++ PyExpr.strLit l c s :: args2)) :: stmts2)) := by
  constructor
  · apply List.mem_flatMap.mpr
    refine ⟨PyStmt.exprStmt (PyExpr.strLit l c s),
      List.mem_append.mpr (Or.inr (List.mem_cons_self _ _)), ?_⟩
    simp [visitStmt, visitExpr, habs]
  · intro cl cc f args1 args2 h1
    apply List.mem_flatMap.mpr
    refine ⟨PyStmt.exprStmt (PyExpr.call cl cc f (args1 ++ PyExpr.strLit l c s :: args2)),
      List.mem_append.mpr (Or.inr (List.mem_cons_self _ _)), ?_⟩
    show (⟨"BE001", l, c, s⟩ : Violation) ∈ visitExpr _
    simp only [visitExpr]
    exact List.mem_append.mpr (Or.inr (mem_visitArgs_strLit habs h1))

/-- Claim C2 witness: the bare literal `"/tmp"` on line 2 and the same
literal as sole argument of a call are both flagged. -/
theorem C2_witness :
    isAbsPath "/tmp" = true ∧
      (⟨"BE001", 2, 4, "/tmp"⟩ : Violation) ∈ runVisitor none
        (PyModule.mk [PyStmt.exprStmt (PyExpr.strLit 2 4 "/tmp")]) ∧
      (⟨"BE001", 2, 4, "/tmp"⟩ : Violation) ∈ runVisitor none
        (PyModule.mk [PyStmt.exprStmt
          (PyExpr.call 2 0 (PyExpr.name 2 0 "f") [PyExpr.strLit 2 4 "/tmp"])]) := by
  have h := C2_amended_absolute_path_literals none [] [] 2 4 "/tmp" (by decide)
  exact ⟨by decide, h.1, h.2 2 0 (PyExpr.name 2 0 "f") [] [] (by simp)⟩

/-- Claim C8 (counterexample): the claim says every call whose callee is
the bare name `reload` is flagged wherever it occurs, including as an
argument of another call.  In `f(reload())` the inner reload call is
never visited — `visit_Call` does not call `generic_visit`, and the
manual argument loop only applies `visit_Str` — so no BE004 violation is
produced. -/
theorem C8_counterexample :
    runVisitor none (PyModule.mk [PyStmt.exprStmt
      (PyExpr.call 1 0 (PyExpr.name 1 0 "f")
        [PyExpr.call 1 2 (PyExpr.name 1 2 "reload") []])]) = [] := by
  decide

/-- Claim C8 (amended): every call expression whose callee is the bare
name `reload` and that is reached by the traversal — in particular every
such call occurring directly as an expression statement — yields a BE004
violation regardless of its arguments; a reload call nested inside the
arguments of another call is not visited (see the counterexample). -/
theorem C8_amended_reload_calls (module : Option String) (stmts1 stmts2 : List PyStmt)
    (l c fl fc : Nat) (args : List PyExpr) :
    (⟨"BE004", l, c, "reload"⟩ : Violation) ∈ runVisitor module
      (PyModule.mk (stmts1 ++ PyStmt.exprStmt
        (PyExpr.call l c (PyExpr.name fl fc "reload") args) :: stmts2)) := by
  apply List.mem_flatMap.mpr
  refine ⟨PyStmt.exprStmt (PyExpr.call l c (PyExpr.name fl fc "reload") args),
    List.mem_append.mpr (Or.inr (List.mem_cons_self _ _)), ?_⟩
  show (⟨"BE004", l, c, "reload"⟩ : Violation) ∈ visitExpr _
  simp only [visitExpr]
  exact List.mem_append.mpr (Or.inl (by simp))

/-- Claim C8 witness: `reload(m)` as a bare expression statement is
flagged. -/
theorem C8_witness :
    (⟨"BE004", 3, 0, "reload"⟩ : Violation) ∈ runVisitor none
      (PyModule.mk [PyStmt.exprStmt
        (PyExpr.call 3 0 (PyExpr.name 3 0 "reload") [PyExpr.name 3 7 "m"])]) :=
  C8_amended_reload_calls none [] [] 3 0 3 0 [PyExpr.name 3 7 "m"]

/-! ### Claim C9: rendering and suppression-parsing round-trip -/

theorem pySplit_no_sep {sep : Char} {s : String} (h : sep ∉ s.data) :
    pySplit sep s = [s] := by
  unfold pySplit
  rw [splitCh_no_sep h]
  simp [mk_data]

/-- Claim C9: for every violation with a non-empty relative path free of
`':'`, any line and column, and a code free of `':'` and `' '`, the
rendered line `{path}:{line}:{column}: {CODE} {message}` parses back
under the Suppression Engine's delimiter convention (split on `':'`;
path, line, column are fields 0, 1, 2; the code is the second
space-separated token of field 3) to exactly the original
`(path, line, column, code)` tuple, whatever the message. -/
theorem C9_roundtrip (path code msg : String) (l c : Nat)
    (_hpne : path ≠ "") (hp : ':' ∉ path.data)
    (hcc : ':' ∉ code.data) (hcs : ' ' ∉ code.data) :
    parseRendered (renderLine path l c code msg) = some (path, (l : Int), (c : Int), code) := by
  obtain ⟨m0, mt, hm⟩ := List.exists_cons_of_ne_nil (splitCh_ne_nil ':' msg.data)
  have hsplit := pySplit_renderLine l c hp hcc hm
  have hfield : (pySplit ' ' (String.mk ((' ' :: code.data ++ [' ']) ++ m0)))[1]? =
      some code := by
    unfold pySplit
    rw [show (String.mk ((' ' :: code.data ++ [' ']) ++ m0)).data =
      (' ' :: code.data ++ [' ']) ++ m0 from rfl]
    rw [splitCh_space_field hcs]
    simp [mk_data]
  unfold parseRendered
  rw [hsplit]
  simp only [List.getElem?_cons_zero, List.getElem?_cons_succ]
  rw [hfield]
  simp only [pyInt_natStr]

/-- Claim C9 witness: a concrete BE001 line round-trips. -/
theorem C9_witness :
    parseRendered (renderLine "./a.py" 12 3 "BE001" (msgFor "BE001")) =
      some ("./a.py", (12 : Int), (3 : Int), "BE001") :=
  C9_roundtrip "./a.py" "BE001" (msgFor "BE001") 12 3 (by decide) (by decide)
    (by decide) (by decide)

/-! ### Claim C4: the report sort comparator -/

/-- Claim C4: `smartsort` compares `':'`-delimited fields one by one,
numerically when both fields parse as integers and bytewise-lexically
otherwise (shown here for single-field inputs, one loop iteration), and
consequently the three lines `a.py:10:...`, `a.py:2:...`, `a.py:9:...`
sort as 2, 9, 10 — numeric, not lexical, order. -/
theorem C4_smartsort_numeric_fields :
    sortCmp smartsort ["a.py:10:0: X msg", "a.py:2:0: X msg", "a.py:9:0: X msg"]
        = some ["a.py:2:0: X msg", "a.py:9:0: X msg", "a.py:10:0: X msg"] ∧
      ∀ x y : String, ':' ∉ x.data → ':' ∉ y.data →
        smartsort x y =
          (match pyInt x, pyInt y with
           | some a, some b =>
             some (if a > b then (1 : Int) else if b > a then -1 else 0)
           | _, _ =>
             some (if pyLt y x then (1 : Int) else if pyLt x y then -1 else 0)) := by
  constructor
  · decide
  · intro x y hx hy
    unfold smartsort
    rw [pySplit_no_sep hx, pySplit_no_sep hy]
    show smartsortLoop [x] [y] 0 1 = _
    rcases hpx : pyInt x with _ | a <;> rcases hpy : pyInt y with _ | b <;>
      simp only [smartsortLoop, List.getElem?_cons_zero, hpx, hpy] <;>
      split_ifs <;> rfl

/-- Claim C4 witness: on the single fields `"10"` and `"9"` the
comparator uses numeric order. -/
theorem C4_witness :
    (':' ∉ "10".data) ∧ (':' ∉ "9".data) ∧ smartsort "10" "9" = some 1 := by
  refine ⟨by decide, by decide, ?_⟩
  rw [C4_smartsort_numeric_fields.2 "10" "9" (by decide) (by decide)]
  decide

/-! ### Lemmas about the suppression engine -/

theorem contains_eq_false_iff {A : List String} {l : String} :
    A.contains l = false ↔ l ∉ A := by
  rw [show A.contains l = List.elem l A from rfl]
  constructor
  · intro h hm
    rw [List.elem_iff.mpr hm] at h
    cases h
  · intro hm
    cases hc : List.elem l A
    · rfl
    · exact absurd (List.elem_iff.mp hc) hm

theorem parseOne_orig {l : String} {e : ParsedEntry} (h : parseOne l = some (some e)) :
    e.orig = l := by
  unfold parseOne at h
  cases hf : lineFields l with
  | none => rw [hf] at h; exact absurd h (by simp)
  | some fields =>
    obtain ⟨f, ln, code⟩ := fields
    rw [hf] at h
    simp only at h
    split at h
    · exact absurd h (by simp)
    · cases hn : pyInt ln with
      | none => rw [hn] at h; exact absurd h (by simp)
      | some n =>
        rw [hn] at h
        injection h with h
        injection h with h
        rw [← h]

theorem parseOne_eq {l f ln code : String} {n : Int}
    (hf : lineFields l = some (f, ln, code)) (hne : f ≠ "") (hn : pyInt ln = some n) :
    parseOne l = some (some ⟨f, n, code, l⟩) := by
  unfold parseOne
  rw [hf]
  simp only [if_neg hne, hn]

theorem parseLines_forall {L : List String} {E : List ParsedEntry}
    (h : parseLines L = some E) : ∀ l ∈ L, parseOne l ≠ none := by
  induction L generalizing E with
  | nil => simp
  | cons x rest ih =>
    intro l hl
    unfold parseLines at h
    cases hp : parseOne x with
    | none => rw [hp] at h; exact absurd h (by simp)
    | some oe =>
      rw [hp] at h
      cases hr : parseLines rest with
      | none =>
        rw [hr] at h
        cases oe <;> exact absurd h (by simp)
      | some es =>
        rw [hr] at h
        rcases List.mem_cons.mp hl with rfl | hl2
        · rw [hp]; simp
        · exact ih hr l hl2

theorem parseLines_isSome {L : List String} (h : ∀ l ∈ L, parseOne l ≠ none) :
    ∃ E, parseLines L = some E := by
  induction L with
  | nil => exact ⟨[], rfl⟩
  | cons x rest ih =>
    obtain ⟨es, hes⟩ := ih fun l hl => h l (List.mem_cons_of_mem _ hl)
    cases hp : parseOne x with
    | none => exact absurd hp (h x (List.mem_cons_self x rest))
    | some oe =>
      cases oe with
      | none => exact ⟨es, by unfold parseLines; rw [hp, hes]⟩
      | some e => exact ⟨e :: es, by unfold parseLines; rw [hp, hes]⟩

theorem parseLines_mem {L : List String} {E : List ParsedEntry}
    (h : parseLines L = some E) {l : String} {e : ParsedEntry}
    (hl : l ∈ L) (hp : parseOne l = some (some e)) : e ∈ E := by
  induction L generalizing E with
  | nil => exact absurd hl (by simp)
  | cons x rest ih =>
    unfold parseLines at h
    cases hpx : parseOne x with
    | none => rw [hpx] at h; exact absurd h (by simp)
    | some oe =>
      rw [hpx] at h
      cases hr : parseLines rest with
      | none =>
        rw [hr] at h
        cases oe <;> exact absurd h (by simp)
      | some es =>
        rw [hr] at h
        rcases List.mem_cons.mp hl with rfl | hl2
        · rw [hpx] at hp
          injection hp with hp
          cases oe with
          | none => exact absurd hp.symm (by simp)
          | some e0 =>
            injection h with h
            rw [← h]
            injection hp with hp
            exact List.mem_cons.mpr (Or.inl hp.symm)
        · have he : e ∈ es := ih hr hl2
          cases oe with
          | none =>
            injection h with h
            rw [← h]
            exact he
          | some e0 =>
            injection h with h
            rw [← h]
            exact List.mem_cons_of_mem _ he

theorem parseLines_src {L : List String} {E : List ParsedEntry}
    (h : parseLines L = some E) :
    ∀ e ∈ E, e.orig ∈ L ∧ parseOne e.orig = some (some e) := by
  induction L generalizing E with
  | nil =>
    intro e he
    unfold parseLines at h
    injection h with h
    rw [← h] at he
    exact absurd he (by simp)
  | cons x rest ih =>
    intro e he
    unfold parseLines at h
    cases hpx : parseOne x with
    | none => rw [hpx] at h; exact absurd h (by simp)
    | some oe =>
      rw [hpx] at h
      cases hr : parseLines rest with
      | none =>
        rw [hr] at h
        cases oe <;> exact absurd h (by simp)
      | some es =>
        rw [hr] at h
        cases oe with
        | none =>
          injection h with h
          rw [← h] at he
          obtain ⟨h1, h2⟩ := ih hr e he
          exact ⟨List.mem_cons_of_mem _ h1, h2⟩
        | some e0 =>
          injection h with h
          rw [← h] at he
          rcases List.mem_cons.mp he with rfl | he2
          · have horig : e.orig = x := parseOne_orig hpx
            rw [horig]
            exact ⟨List.mem_cons_self x rest, hpx⟩
          · obtain ⟨h1, h2⟩ := ih hr e he2
            exact ⟨List.mem_cons_of_mem _ h1, h2⟩

theorem approvedOf_files {files : String → Option (List String)}
    {E : List ParsedEntry} {A : List String} (h : approvedOf files E = some A) :
    ∀ e ∈ E, files e.filename ≠ none := by
  induction E generalizing A with
  | nil => simp
  | cons e0 rest ih =>
    intro e he
    unfold approvedOf at h
    cases hf : files e0.filename with
    | none => rw [hf] at h; exact absurd h (by simp)
    | some flines =>
      rw [hf] at h
      cases hr : approvedOf files rest with
      | none => rw [hr] at h; exact absurd h (by simp)
      | some acc =>
        rcases List.mem_cons.mp he with rfl | he2
        · rw [hf]; simp
        · exact ih hr e he2

theorem approvedOf_isSome {files : String → Option (List String)} {E : List ParsedEntry}
    (h : ∀ e ∈ E, files e.filename ≠ none) :
    ∃ A, approvedOf files E = some A := by
  induction E with
  | nil => exact ⟨[], rfl⟩
  | cons e rest ih =>
    obtain ⟨acc, hacc⟩ := ih fun x hx => h x (List.mem_cons_of_mem _ hx)
    cases hf : files e.filename with
    | none => exact absurd hf (h e (List.mem_cons_self e rest))
    | some flines =>
      refine ⟨if pyIn e.code (getCommentString flines e.lineNo) then e.orig :: acc else acc, ?_⟩
      unfold approvedOf
      rw [hf, hacc]

theorem mem_approvedOf {files : String → Option (List String)}
    {E : List ParsedEntry} {A : List String} (h : approvedOf files E = some A) {x : String} :
    x ∈ A ↔ ∃ e ∈ E, e.orig = x ∧ ∃ fl, files e.filename = some fl ∧
      pyIn e.code (getCommentString fl e.lineNo) = true := by
  induction E generalizing A with
  | nil =>
    unfold approvedOf at h
    injection h with h
    rw [← h]
    simp
  | cons e0 rest ih =>
    unfold approvedOf at h
    cases hf : files e0.filename with
    | none => rw [hf] at h; exact absurd h (by simp)
    | some flines =>
      rw [hf] at h
      cases hr : approvedOf files rest with
      | none => rw [hr] at h; exact absurd h (by simp)
      | some acc =>
        rw [hr] at h
        injection h with h
        rw [← h]
        have hrec := ih hr
        by_cases hpy : pyIn e0.code (getCommentString flines e0.lineNo) = true
        · rw [if_pos hpy]
          constructor
          · intro hm
            rcases List.mem_cons.mp hm with rfl | hm2
            · exact ⟨e0, List.mem_cons_self e0 rest, rfl, flines, hf, hpy⟩
            · obtain ⟨e, he, h1, fl, h2, h3⟩ := hrec.mp hm2
              exact ⟨e, List.mem_cons_of_mem _ he, h1, fl, h2, h3⟩
          · rintro ⟨e, he, h1, fl, h2, h3⟩
            rcases List.mem_cons.mp he with rfl | he2
            · exact List.mem_cons.mpr (Or.inl h1.symm)
            · exact List.mem_cons_of_mem _ (hrec.mpr ⟨e, he2, h1, fl, h2, h3⟩)
        · rw [if_neg hpy]
          constructor
          · intro hm
            obtain ⟨e, he, h1, fl, h2, h3⟩ := hrec.mp hm
            exact ⟨e, List.mem_cons_of_mem _ he, h1, fl, h2, h3⟩
          · rintro ⟨e, he, h1, fl, h2, h3⟩
            rcases List.mem_cons.mp he with rfl | he2
            · rw [hf] at h2
              injection h2 with h2
              rw [← h2] at h3
              exact absurd h3 hpy
            · exact hrec.mpr ⟨e, he2, h1, fl, h2, h3⟩

theorem keepLine_of_finalFields {s : String → Bool} {codes A : List String}
    {l f code : String} (hf : finalFields l = some (f, code)) :
    keepLine s codes A l = (!A.contains l && !s f && !codes.contains code) := by
  unfold keepLine
  rw [hf]

theorem filterLines_eq {s : String → Bool} {codes A L O : List String}
    (h : filterLines s codes A L = some O) : O = L.filter (keepLine s codes A) := by
  induction L generalizing O with
  | nil =>
    unfold filterLines at h
    injection h with h
    rw [← h]
    rfl
  | cons x rest ih =>
    unfold filterLines at h
    cases hf : finalFields x with
    | none => rw [hf] at h; exact absurd h (by simp)
    | some fc =>
      rw [hf] at h
      cases hr : filterLines s codes A rest with
      | none => rw [hr] at h; exact absurd h (by simp)
      | some acc =>
        rw [hr] at h
        injection h with h
        rw [← h, List.filter_cons, ← ih hr]

theorem filterLines_forall {s : String → Bool} {codes A L O : List String}
    (h : filterLines s codes A L = some O) : ∀ l ∈ L, finalFields l ≠ none := by
  induction L generalizing O with
  | nil => simp
  | cons x rest ih =>
    intro l hl
    unfold filterLines at h
    cases hf : finalFields x with
    | none => rw [hf] at h; exact absurd h (by simp)
    | some fc =>
      rw [hf] at h
      cases hr : filterLines s codes A rest with
      | none => rw [hr] at h; exact absurd h (by simp)
      | some acc =>
        rcases List.mem_cons.mp hl with rfl | hl2
        · rw [hf]; simp
        · exact ih hr l hl2

theorem filterLines_isSome {s : String → Bool} {codes A : List String} {L : List String}
    (h : ∀ l ∈ L, finalFields l ≠ none) :
    ∃ O, filterLines s codes A L = some O := by
  induction L with
  | nil => exact ⟨[], rfl⟩
  | cons x rest ih =>
    obtain ⟨acc, hacc⟩ := ih fun l hl => h l (List.mem_cons_of_mem _ hl)
    cases hf : finalFields x with
    | none => exact absurd hf (h x (List.mem_cons_self x rest))
    | some fc =>
      refine ⟨if keepLine s codes A x then x :: acc else acc, ?_⟩
      unfold filterLines
      rw [hf, hacc]

theorem filterResults_eq {s : String → Bool} {codes A : List String}
    {rs out : List CheckResult} (h : filterResults s codes A rs = some out) :
    out = rs.map fun r =>
      { r with output := r.output.filter (keepLine s codes A),
               num_violations := (r.output.filter (keepLine s codes A)).length } := by
  induction rs generalizing out with
  | nil =>
    unfold filterResults at h
    injection h with h
    rw [← h]
    rfl
  | cons r rest ih =>
    unfold filterResults at h
    cases hf : filterLines s codes A r.output with
    | none => rw [hf] at h; exact absurd h (by simp)
    | some newOutput =>
      rw [hf] at h
      cases hr : filterResults s codes A rest with
      | none => rw [hr] at h; exact absurd h (by simp)
      | some others =>
        rw [hr] at h
        injection h with h
        rw [← h, List.map_cons, ← ih hr, filterLines_eq hf]

theorem filterResults_forall {s : String → Bool} {codes A : List String}
    {rs out : List CheckResult} (h : filterResults s codes A rs = some out) :
    ∀ r ∈ rs, ∀ l ∈ r.output, finalFields l ≠ none := by
  induction rs generalizing out with
  | nil => simp
  | cons r rest ih =>
    intro r0 hr0
    unfold filterResults at h
    cases hf : filterLines s codes A r.output with
    | none => rw [hf] at h; exact absurd h (by simp)
    | some newOutput =>
      rw [hf] at h
      cases hrr : filterResults s codes A rest with
      | none => rw [hrr] at h; exact absurd h (by simp)
      | some others =>
        rcases List.mem_cons.mp hr0 with rfl | hr2
        · exact filterLines_forall hf
        · exact ih hrr r0 hr2

theorem filterResults_isSome {s : String → Bool} {codes A : List String}
    {rs : List CheckResult} (h : ∀ r ∈ rs, ∀ l ∈ r.output, finalFields l ≠ none) :
    ∃ out, filterResults s codes A rs = some out := by
  induction rs with
  | nil => exact ⟨[], rfl⟩
  | cons r rest ih =>
    obtain ⟨others, hothers⟩ := ih fun r0 hr0 => h r0 (List.mem_cons_of_mem _ hr0)
    obtain ⟨newOutput, hnew⟩ :=
      @filterLines_isSome s codes A r.output (h r (List.mem_cons_self r rest))
    refine ⟨{ r with output := newOutput, num_violations := newOutput.length } :: others, ?_⟩
    unfold filterResults
    rw [hnew, hothers]

theorem finalFields_of_lineFields {l f ln code : String}
    (h : lineFields l = some (f, ln, code)) : finalFields l = some (f, code) := by
  simp only [lineFields] at h
  simp only [finalFields]
  cases h0 : (pySplit ':' l)[0]? with
  | none => rw [h0] at h; exact absurd h (by simp)
  | some a =>
    rw [h0] at h
    cases h1 : (pySplit ':' l)[1]? with
    | none => rw [h1] at h; exact absurd h (by simp)
    | some b =>
      rw [h1] at h
      cases h3 : (pySplit ':' l)[3]? with
      | none => rw [h3] at h; exact absurd h (by simp)
      | some v3 =>
        rw [h3] at h
        have hm : (match (pySplit ' ' v3)[1]? with
            | some code => some (a, b, code)
            | none => none) = some (f, ln, code) := h
        cases ht : (pySplit ' ' v3)[1]? with
        | none => rw [ht] at hm; exact absurd hm (by simp)
        | some tok =>
          rw [ht] at hm
          injection hm with hm
          simp only [Prod.mk.injEq] at hm
          obtain ⟨rfl, -, rfl⟩ := hm
          show (match (pySplit ' ' v3)[1]? with
            | some code => some (a, code)
            | none => none) = some (a, tok)
          rw [ht]

theorem finalFields_of_parseOne {l : String} (h : parseOne l ≠ none) :
    finalFields l ≠ none := by
  unfold parseOne at h
  cases hf : lineFields l with
  | none => rw [hf] at h; simp at h
  | some fields =>
    obtain ⟨f, ln, code⟩ := fields
    rw [finalFields_of_lineFields hf]
    simp

theorem removeExceptions_some {s : String → Bool} {codes : List String}
    {files : String → Option (List String)} {rs out : List CheckResult}
    (h : removeExceptions s codes files rs = some out) :
    ∃ E A, parseLines (allOutput rs) = some E ∧ approvedOf files E = some A ∧
      filterResults s codes A rs = some out := by
  unfold removeExceptions at h
  split at h
  · exact absurd h (by simp)
  · rename_i E hE
    split at h
    · exact absurd h (by simp)
    · rename_i A hA
      exact ⟨E, A, hE, hA, h⟩

/-- Claim C3: suppression is idempotent — running `__remove_exceptions`
again on its own output, with the same ignore policy, blacklist and file
contents, returns that output unchanged (same surviving lines and
counts). -/
theorem C3_suppression_idempotent (s : String → Bool) (codes : List String)
    (files : String → Option (List String)) (results out : List CheckResult)
    (h : removeExceptions s codes files results = some out) :
    removeExceptions s codes files out = some out := by
  obtain ⟨E, A, hE, hA, hF⟩ := removeExceptions_some h
  have hout := filterResults_eq hF
  have hsub : ∀ l ∈ allOutput out, l ∈ allOutput results := by
    intro l hl
    rcases List.mem_flatMap.mp hl with ⟨r2, hr2, hlr⟩
    rw [hout] at hr2
    rcases List.mem_map.mp hr2 with ⟨r, hr, rfl⟩
    exact List.mem_flatMap.mpr ⟨r, hr, (List.mem_filter.mp hlr).1⟩
  have hPdef : ∀ l ∈ allOutput out, parseOne l ≠ none := fun l hl =>
    parseLines_forall hE l (hsub l hl)
  obtain ⟨E2, hE2⟩ := parseLines_isSome hPdef
  have hE2sub : ∀ e ∈ E2, e ∈ E := by
    intro e he
    obtain ⟨hsrc, hpe⟩ := parseLines_src hE2 e he
    exact parseLines_mem hE (hsub _ hsrc) hpe
  obtain ⟨A2, hA2⟩ := approvedOf_isSome fun e he => approvedOf_files hA e (hE2sub e he)
  have hA2A : ∀ l : String, l ∈ A2 → l ∈ A := by
    intro l hl
    obtain ⟨e, he, h1, fl, h2, h3⟩ := (mem_approvedOf hA2).mp hl
    exact (mem_approvedOf hA).mpr ⟨e, hE2sub e he, h1, fl, h2, h3⟩
  have hdef2 : ∀ r ∈ out, ∀ l ∈ r.output, finalFields l ≠ none := fun r hr l hl =>
    finalFields_of_parseOne (hPdef l (List.mem_flatMap.mpr ⟨r, hr, hl⟩))
  obtain ⟨out2, hout2⟩ := @filterResults_isSome s codes A2 out hdef2
  have hout2eq := filterResults_eq hout2
  have hkeep2 : ∀ r ∈ results, ∀ l ∈ r.output.filter (keepLine s codes A),
      keepLine s codes A2 l = true := by
    intro r hr l hl
    obtain ⟨hlr, hk1⟩ := List.mem_filter.mp hl
    have hlout : l ∈ allOutput out := by
      apply List.mem_flatMap.mpr
      rw [hout]
      exact ⟨_, List.mem_map.mpr ⟨r, hr, rfl⟩, List.mem_filter.mpr ⟨hlr, hk1⟩⟩
    have hffne : finalFields l ≠ none := finalFields_of_parseOne (hPdef l hlout)
    obtain ⟨fc, hfc⟩ := Option.ne_none_iff_exists'.mp hffne
    obtain ⟨f, code⟩ := fc
    rw [keepLine_of_finalFields hfc] at hk1 ⊢
    simp only [Bool.and_eq_true, Bool.not_eq_true'] at hk1 ⊢
    refine ⟨⟨?_, hk1.1.2⟩, hk1.2⟩
    rw [contains_eq_false_iff]
    intro hmem
    have hnotA := contains_eq_false_iff.mp hk1.1.1
    exact hnotA (hA2A l hmem)
  have hout2out : out2 = out := by
    rw [hout2eq, hout, List.map_map]
    apply List.map_congr_left
    intro r hr
    have hfilter : (r.output.filter (keepLine s codes A)).filter (keepLine s codes A2) =
        r.output.filter (keepLine s codes A) :=
      List.filter_eq_self.mpr fun l hl => hkeep2 r hr l hl
    dsimp only [Function.comp]
    rw [hfilter]
  have hstep : removeExceptions s codes files out = filterResults s codes A2 out := by
    unfold removeExceptions
    rw [hE2]
    show (match approvedOf files E2 with
      | none => none
      | some ignoredErrors => filterResults s codes ignoredErrors out) =
        filterResults s codes A2 out
    rw [hA2]
  rw [hstep, hout2, hout2out]

/-- Claim C3 witness: a run that filters an E501 line out is a fixed
point of a second run. -/
theorem C3_witness :
    removeExceptions (fun _ => false) (buildIgnoredCodes none) (fun _ => some ["x"])
        [mkCheckResult "flake8" ["./a.py:1:0: E501 line too long"]] =
      some [⟨"flake8", [], 0, 1⟩] ∧
    removeExceptions (fun _ => false) (buildIgnoredCodes none) (fun _ => some ["x"])
        [⟨"flake8", [], 0, 1⟩] = some [⟨"flake8", [], 0, 1⟩] := by
  have hrem : removeExceptions (fun _ => false) (buildIgnoredCodes none) (fun _ => some ["x"])
      [mkCheckResult "flake8" ["./a.py:1:0: E501 line too long"]] =
      some [⟨"flake8", [], 0, 1⟩] := by decide
  exact ⟨hrem, C3_suppression_idempotent _ _ _ _ _ hrem⟩

/-- Claim C10: the suppression engine rewrites only `output` and
`num_violations`; `type` and `return_code` of every check result survive
unchanged, and a result created by `__run_check` from a non-empty output
has `return_code = 1` — so it stays 1 even when every line is removed. -/
theorem C10_return_code_frame (s : String → Bool) (codes : List String)
    (files : String → Option (List String)) (results out : List CheckResult)
    (h : removeExceptions s codes files results = some out) :
    out.length = results.length ∧
      (∀ i : Nat, ∀ r r2 : CheckResult, results[i]? = some r → out[i]? = some r2 →
        r2.return_code = r.return_code ∧ r2.type = r.type) ∧
      ∀ (ty : String) (o : List String), o ≠ [] → (mkCheckResult ty o).return_code = 1 := by
  obtain ⟨E, A, hE, hA, hF⟩ := removeExceptions_some h
  have hout := filterResults_eq hF
  subst hout
  refine ⟨by simp, ?_, ?_⟩
  · intro i r r2 hr hr2
    rw [List.getElem?_map, hr] at hr2
    injection hr2 with hr2
    rw [← hr2]
    exact ⟨rfl, rfl⟩
  · intro ty o ho
    have hlen : o.length ≠ 0 := fun hc => ho (List.length_eq_zero.mp hc)
    simp [mkCheckResult, hlen]

/-- Claim C10 witness: suppression empties the output of a result created
from one E501 line, and its return code is still 1. -/
theorem C10_witness :
    removeExceptions (fun _ => false) (buildIgnoredCodes none) (fun _ => some ["x"])
        [mkCheckResult "flake8" ["./a.py:1:0: E501 line too long"]] =
      some [⟨"flake8", [], 0, 1⟩] ∧
    (⟨"flake8", [], 0, 1⟩ : CheckResult).return_code =
      (mkCheckResult "flake8" ["./a.py:1:0: E501 line too long"]).return_code ∧
    (mkCheckResult "flake8" ["./a.py:1:0: E501 line too long"]).return_code = 1 := by
  have hrem : removeExceptions (fun _ => false) (buildIgnoredCodes none) (fun _ => some ["x"])
      [mkCheckResult "flake8" ["./a.py:1:0: E501 line too long"]] =
      some [⟨"flake8", [], 0, 1⟩] := by decide
  have hthm := C10_return_code_frame _ _ _ _ _ hrem
  exact ⟨hrem, (hthm.2.1 0 _ _ rfl rfl).1, by decide⟩

/-- Claim C1 (counterexample): the claim says a rendered violation at
line N is suppressed via inline approval if and only if its code appears
in the comment portions of lines N, N-1, N-2 (1-based).  Here the
violation is at line 3 and the code `BE001` appears in the comment of
line 1 = N-2 (`specCommentString`, which follows the spec's words,
contains it), yet the whole engine leaves the line untouched: violation
line numbers are 1-based but the file-line index built by `enumerate` is
0-based, so `__get_comment_string` actually reads lines 2, 3 and 4. -/
theorem C1_counterexample :
    removeExceptions (fun _ => false) (buildIgnoredCodes none)
        (fun p => if p == "./a.py" then
          some ["# approved BE001", "x = 1", "y = 2", "z = 3"] else none)
        [⟨"bfx", ["./a.py:3:0: BE001 string contains absolute path"], 1, 1⟩] =
      some [⟨"bfx", ["./a.py:3:0: BE001 string contains absolute path"], 1, 1⟩] ∧
    pyIn "BE001"
      (specCommentString ["# approved BE001", "x = 1", "y = 2", "z = 3"] 3) = true := by
  exact ⟨by decide, by decide⟩

/-- Claim C1 (amended): a rendered violation line for a non-empty file
path, parsed to `(path, N, code)`, is marked approved-for-suppression by
the engine if and only if its code occurs as a literal substring of the
concatenated comment portions of the stored lines at 0-based indices
N-2, N-1 and N — that is, 1-based lines N-1, N and N+1: the line before
the violation, the line itself and the line after it (the engine's
1-based line numbers index a 0-based line dictionary). -/
theorem C1_amended_inline_approval (results : List CheckResult)
    (files : String → Option (List String)) (l f ln code : String) (n : Int)
    (flines : List String) (E : List ParsedEntry) (A : List String)
    (hE : parseLines (allOutput results) = some E)
    (hA : approvedOf files E = some A)
    (hl : l ∈ allOutput results)
    (hf : lineFields l = some (f, ln, code)) (hne : f ≠ "")
    (hn : pyInt ln = some n) (hfl : files f = some flines) :
    l ∈ A ↔ pyIn code (getCommentString flines n) = true := by
  have hpe : parseOne l = some (some ⟨f, n, code, l⟩) := parseOne_eq hf hne hn
  constructor
  · intro hmem
    obtain ⟨e, heE, horig, fl2, hfl2, hpy⟩ := (mem_approvedOf hA).mp hmem
    have hsrc := (parseLines_src hE e heE).2
    rw [horig, hpe] at hsrc
    injection hsrc with hsrc
    injection hsrc with hsrc
    rw [← hsrc] at hfl2 hpy
    simp only at hfl2 hpy
    rw [hfl] at hfl2
    injection hfl2 with hfl2
    rw [hfl2]
    exact hpy
  · intro hpy
    exact (mem_approvedOf hA).mpr
      ⟨⟨f, n, code, l⟩, parseLines_mem hE hl hpe, rfl, flines, hfl, hpy⟩

/-- Claim C1 witness: a violation at line 3 whose code appears in the
comment of line 3 itself is marked approved. -/
theorem C1_witness :
    "./a.py:3:0: BE001 string contains absolute path" ∈
        (["./a.py:3:0: BE001 string contains absolute path"] : List String) ∧
      pyIn "BE001" (getCommentString ["x", "y", "z # ok BE001", "w"] 3) = true := by
  have hiff := C1_amended_inline_approval
    [⟨"bfx", ["./a.py:3:0: BE001 string contains absolute path"], 1, 1⟩]
    (fun p => if p == "./a.py" then some ["x", "y", "z # ok BE001", "w"] else none)
    "./a.py:3:0: BE001 string contains absolute path" "./a.py" "3" "BE001" 3
    ["x", "y", "z # ok BE001", "w"]
    [⟨"./a.py", 3, "BE001", "./a.py:3:0: BE001 string contains absolute path"⟩]
    ["./a.py:3:0: BE001 string contains absolute path"]
    (by decide) (by decide) (by decide) (by decide) (by decide) (by decide) (by decide)
  exact ⟨hiff.mpr (by decide), by decide⟩
